import Mathlib

/-!
Verification development for the ml_catalysis_tutorials repository.

The repository is a jupyter-book tutorial site: a table of contents
(`_toc.yml`), a GitHub Actions deployment workflow, and a set of tutorial
notebooks that call into external libraries (ASE, the OCP framework, lmdb).
This file gives a shallow embedding of the artifacts the specification
talks about:

* the declared table of contents (`_toc.yml`);
* the `deploy` workflow (`.github/workflows`);
* a per-notebook inventory of download commands, error-handling constructs,
  concurrency constructs and defensive guards, transcribed from the code
  cells of each notebook;
* an operational model of the two LMDB-writing loops of
  `notes/custom_datasets/lmdb_dataset_creation.ipynb`, together with a
  model of the store and of the external dataset readers;
* a small Python heap model for the `copy.deepcopy(model)` idiom used in
  the two training notebooks.
-/

/-! ## Table of contents (`ml-catalysis-tutorials/_toc.yml`) -/

/-- One captioned part of the jupyter-book table of contents. -/
structure TocPart where
  caption : String
  chapters : List String
deriving DecidableEq, Repr

/-- The whole table of contents file. -/
structure TableOfContents where
  fmt : String
  root : String
  parts : List TocPart
deriving DecidableEq, Repr

/-- Transcription of `ml-catalysis-tutorials/_toc.yml`. -/
def toc : TableOfContents :=
  { fmt := "jb-book"
  , root := "intro"
  , parts :=
    [ { caption := "Background"
      , chapters :=
        [ "notes/background/background"
        , "notes/background/extra_resources"
        , "notes/background/install" ] }
    , { caption := "Quick-start using pre-trained models"
      , chapters :=
        [ "notes/pretrained_models/relaxations"
        , "notes/pretrained_models/ase_calculator_demo"
        , "notes/pretrained_models/ase_calculator_demo_oc22" ] }
    , { caption := "Using the OCP datasets"
      , chapters :=
        [ "notes/ocp_datasets/oc20_overview"
        , "notes/ocp_datasets/oc22_overview"
        , "notes/ocp_datasets/interacting_with_datasets" ] }
    , { caption := "Training ML models for OCP tasks"
      , chapters :=
        [ "notes/model_training/ocp_tasks"
        , "notes/model_training/s2ef"
        , "notes/model_training/is2rs"
        , "notes/model_training/is2re" ] }
    , { caption := "Using OCP with your own datasets"
      , chapters :=
        [ "notes/custom_datasets/data_preprocessing"
        , "notes/custom_datasets/lmdb_dataset_creation" ] } ] }

/-- The reading sequence declared by a table of contents: the chapters of
all parts, in order. -/
def tocSequence (t : TableOfContents) : List String :=
  t.parts.flatMap TocPart.chapters

/-! ## The `deploy` GitHub Actions workflow -/

/-- Classification of a workflow step by what it does. -/
inductive StepKind where
  | checkout
  | provisionCondaEnv
  | installExternalFromSource
  | buildSite
  | publishSite
deriving DecidableEq, Repr

/-- One step of the workflow job.  `usesAction` is the `uses:` field when
the step invokes a packaged action; `runLines` are the lines of its `run:`
script; `withParams` are the `with:` parameters (the token-valued
`github_token` parameter of the publish step is omitted). -/
structure WorkflowStep where
  stepName : String
  kind : StepKind
  usesAction : Option String
  runLines : List String
  withParams : List (String × String)
deriving DecidableEq, Repr

/-- A `push:`-event trigger restricted to a list of branches. -/
structure PushTrigger where
  branches : List String
deriving DecidableEq, Repr

/-- A workflow with a single job, given by its ordered list of steps. -/
structure Workflow where
  wfName : String
  jobName : String
  onPush : Option PushTrigger
  otherTriggers : List String
  steps : List WorkflowStep
deriving DecidableEq, Repr

/-- Transcription of the repository's `deploy` workflow
(`build-and-deploy-book` job). -/
def deployWorkflow : Workflow :=
  { wfName := "deploy"
  , jobName := "build-and-deploy-book"
  , onPush := some { branches := ["main"] }
  , otherTriggers := []
  , steps :=
    [ { stepName := ""
      , kind := .checkout
      , usesAction := some "actions/checkout@v3"
      , runLines := []
      , withParams := [] }
    , { stepName := "Install Conda environment with Micromamba"
      , kind := .provisionCondaEnv
      , usesAction := some "mamba-org/provision-with-micromamba@main"
      , runLines := []
      , withParams :=
        [ ("environment-file", "myenv.yml")
        , ("channel-priority", "flexible")
        , ("channels", "conda-forge,defaults,pytorch,nvidia") ] }
    , { stepName := "Install OCP cpu codebase"
      , kind := .installExternalFromSource
      , usesAction := none
      , runLines :=
        [ "wget https://raw.githubusercontent.com/Open-Catalyst-Project/ocp/main/env.common.yml"
        , "wget https://raw.githubusercontent.com/Open-Catalyst-Project/ocp/main/env.cpu.yml"
        , "conda-merge env.common.yml env.cpu.yml > env.yml"
        , "mamba env update --file env.yml -n base" ]
      , withParams := [] }
    , { stepName := "Install OCP codebase"
      , kind := .installExternalFromSource
      , usesAction := none
      , runLines :=
        [ "git clone https://github.com/Open-Catalyst-Project/ocp.git"
        , "(cd ocp && python setup.py develop)" ]
      , withParams := [] }
    , { stepName := "Build the book"
      , kind := .buildSite
      , usesAction := none
      , runLines := ["jupyter-book build ml-catalysis-tutorials"]
      , withParams := [] }
    , { stepName := "GitHub Pages action"
      , kind := .publishSite
      , usesAction := some "peaceiris/actions-gh-pages@v3"
      , runLines := []
      , withParams := [("publish_dir", "ml-catalysis-tutorials/_build/html")] } ] }

/-! ## Per-notebook inventory

For the corpus-level statements of the specification (downloads,
error handling, concurrency) each notebook is summarised by an inventory
transcribed from its code cells: the hardcoded URLs its shell commands
fetch, the number of try/except blocks, the number of retry loops, the
concurrency primitives used, and the conditions inspected in order to
branch around a failure mode. -/

structure NotebookInventory where
  nbName : String
  codeCellCount : Nat
  downloadURLs : List String
  tryExceptBlocks : Nat
  retryLoops : Nat
  concurrencyPrimitives : List String
  failureGuardConds : List String
deriving DecidableEq, Repr

/-- notes/background/background.ipynb: one code cell (display only). -/
def backgroundNb : NotebookInventory :=
  { nbName := "notes/background/background"
  , codeCellCount := 1
  , downloadURLs := []
  , tryExceptBlocks := 0
  , retryLoops := 0
  , concurrencyPrimitives := []
  , failureGuardConds := [] }

/-- notes/pretrained_models/relaxations.ipynb: the EMT toy-calculator
adsorption-energy notebook.  Its 19 code cells build structures with ASE
and relax them locally; no cell fetches an external asset. -/
def relaxationsNb : NotebookInventory :=
  { nbName := "notes/pretrained_models/relaxations"
  , codeCellCount := 19
  , downloadURLs := []
  , tryExceptBlocks := 0
  , retryLoops := 0
  , concurrencyPrimitives := []
  , failureGuardConds := [] }

/-- notes/pretrained_models/ase_calculator_demo.ipynb: wgets a pretrained
GemNet-T checkpoint. -/
def aseCalculatorDemoNb : NotebookInventory :=
  { nbName := "notes/pretrained_models/ase_calculator_demo"
  , codeCellCount := 5
  , downloadURLs :=
    ["https://dl.fbaipublicfiles.com/opencatalystproject/models/2021_08/s2ef/gemnet_t_direct_h512_all.pt"]
  , tryExceptBlocks := 0
  , retryLoops := 0
  , concurrencyPrimitives := []
  , failureGuardConds := [] }

/-- notes/pretrained_models/ase_calculator_demo_oc22.ipynb: wgets a
pretrained OC22 checkpoint. -/
def aseCalculatorDemoOc22Nb : NotebookInventory :=
  { nbName := "notes/pretrained_models/ase_calculator_demo_oc22"
  , codeCellCount := 7
  , downloadURLs :=
    ["https://dl.fbaipublicfiles.com/opencatalystproject/models/2022_09/oc22/s2ef/gnoc_oc22_oc20_all_s2ef.pt"]
  , tryExceptBlocks := 0
  , retryLoops := 0
  , concurrencyPrimitives := []
  , failureGuardConds := [] }

/-- notes/ocp_datasets/interacting_with_datasets.ipynb: wgets the sample
dataset tarball. -/
def interactingWithDatasetsNb : NotebookInventory :=
  { nbName := "notes/ocp_datasets/interacting_with_datasets"
  , codeCellCount := 5
  , downloadURLs :=
    ["http://dl.fbaipublicfiles.com/opencatalystproject/data/tutorial_data.tar.gz"]
  , tryExceptBlocks := 0
  , retryLoops := 0
  , concurrencyPrimitives := []
  , failureGuardConds := [] }

/-- notes/model_training/ocp_tasks.ipynb: markdown only, no code cells. -/
def ocpTasksNb : NotebookInventory :=
  { nbName := "notes/model_training/ocp_tasks"
  , codeCellCount := 0
  , downloadURLs := []
  , tryExceptBlocks := 0
  , retryLoops := 0
  , concurrencyPrimitives := []
  , failureGuardConds := [] }

/-- notes/model_training/s2ef.ipynb: wgets the sample dataset tarball.
The `num_workers: 2` entry of its optimizer dictionary is a configuration
value handed to the external trainer, not a concurrency construct used by
the notebook code. -/
def s2efTrainingNb : NotebookInventory :=
  { nbName := "notes/model_training/s2ef"
  , codeCellCount := 13
  , downloadURLs :=
    ["http://dl.fbaipublicfiles.com/opencatalystproject/data/tutorial_data.tar.gz"]
  , tryExceptBlocks := 0
  , retryLoops := 0
  , concurrencyPrimitives := []
  , failureGuardConds := [] }

/-- notes/model_training/is2re.ipynb: wgets the sample dataset tarball. -/
def is2reTrainingNb : NotebookInventory :=
  { nbName := "notes/model_training/is2re"
  , codeCellCount := 13
  , downloadURLs :=
    ["http://dl.fbaipublicfiles.com/opencatalystproject/data/tutorial_data.tar.gz"]
  , tryExceptBlocks := 0
  , retryLoops := 0
  , concurrencyPrimitives := []
  , failureGuardConds := [] }

/-- notes/custom_datasets/data_preprocessing.ipynb: builds its own toy
data with ASE, no downloads, no guards. -/
def dataPreprocessingNb : NotebookInventory :=
  { nbName := "notes/custom_datasets/data_preprocessing"
  , codeCellCount := 18
  , downloadURLs :=
    []
  , tryExceptBlocks := 0
  , retryLoops := 0
  , concurrencyPrimitives := []
  , failureGuardConds := [] }

/-- notes/custom_datasets/lmdb_dataset_creation.ipynb: builds its own toy
trajectory, no downloads; its two writing loops each inspect a
zero-neighbor condition in order to skip (branch around) a frame whose
converted graph has an empty edge set. -/
def lmdbDatasetCreationNb : NotebookInventory :=
  { nbName := "notes/custom_datasets/lmdb_dataset_creation"
  , codeCellCount := 17
  , downloadURLs := []
  , tryExceptBlocks := 0
  , retryLoops := 0
  , concurrencyPrimitives := []
  , failureGuardConds :=
    [ "initial_struc.edge_index.shape[1] == 0"
    , "data.edge_index.shape[1] == 0" ] }

/-- The notebooks of the repository, as inventoried above. -/
def notebookCorpus : List NotebookInventory :=
  [ backgroundNb
  , relaxationsNb
  , aseCalculatorDemoNb
  , aseCalculatorDemoOc22Nb
  , interactingWithDatasetsNb
  , ocpTasksNb
  , s2efTrainingNb
  , is2reTrainingNb
  , dataPreprocessingNb
  , lmdbDatasetCreationNb ]

/-- The three fixed asset URLs that appear hardcoded in the corpus. -/
def hardcodedAssetURLs : List String :=
  [ "https://dl.fbaipublicfiles.com/opencatalystproject/models/2021_08/s2ef/gemnet_t_direct_h512_all.pt"
  , "https://dl.fbaipublicfiles.com/opencatalystproject/models/2022_09/oc22/s2ef/gnoc_oc22_oc20_all_s2ef.pt"
  , "http://dl.fbaipublicfiles.com/opencatalystproject/data/tutorial_data.tar.gz" ]

/-! ## Operational model of `lmdb_dataset_creation.ipynb`

The two writing loops of the dataset-creation notebook are embedded as
executable functions.  Numeric payloads (positions, energies, forces) are
rationals; the external `AtomsToGraphs` conversion is a parameter
`convert`; reading a trajectory file from its path is a parameter
`readFile`.  Pickling is modelled by the tagged `StoredVal` type: a pickled
graph record or a pickled integer.  A put is a key/value pair, and the
store file contents are the list of puts in commit order. -/

/-- An ASE `Atoms` snapshot as used by the notebook: atomic numbers,
positions, and per-atom tags. -/
structure AseAtoms where
  numbers : List Nat
  positions : List (ℚ × ℚ × ℚ)
  atomTags : List ℤ
deriving DecidableEq, Repr

/-- A converted graph data object, the output of `a2g.convert_all` for one
frame with `r_energy`, `r_forces` and `r_fixed` enabled. -/
structure GraphData where
  atomic_numbers : List Nat
  pos : List (ℚ × ℚ × ℚ)
  natoms : Nat
  edge_index : List (Nat × Nat)
  y : ℚ
  force : List (ℚ × ℚ × ℚ)
  fixed : List Bool
  dataTags : List ℤ
deriving DecidableEq, Repr

/-- The record the IS2RE loop assembles in place on `initial_struc`:
`y` is renamed to `y_init` and deleted, `y_relaxed`/`pos_relaxed` are
copied from the relaxed frame, and `sid` is set to the running index. -/
structure Is2reRecord where
  atomic_numbers : List Nat
  pos : List (ℚ × ℚ × ℚ)
  natoms : Nat
  edge_index : List (Nat × Nat)
  force : List (ℚ × ℚ × ℚ)
  fixed : List Bool
  dataTags : List ℤ
  y_init : ℚ
  y_relaxed : ℚ
  pos_relaxed : List (ℚ × ℚ × ℚ)
  sid : Nat
deriving DecidableEq, Repr

/-- The record the S2EF loop assembles on each frame: `sid` is the constant
tensor `[0]`, `fid` is the tensor `[fid]`, and the trajectory tags are
attached. -/
structure S2efRecord where
  atomic_numbers : List Nat
  pos : List (ℚ × ℚ × ℚ)
  natoms : Nat
  edge_index : List (Nat × Nat)
  y : ℚ
  force : List (ℚ × ℚ × ℚ)
  fixed : List Bool
  dataTags : List ℤ
  sid : List ℤ
  fid : List ℤ
deriving DecidableEq, Repr

/-- A pickled value as stored by `txn.put`: either a serialized graph
record (IS2RE or S2EF flavour) or a serialized integer (the S2EF cell's
final record-count entry). -/
inductive StoredVal where
  | is2re (r : Is2reRecord)
  | s2ef (r : S2efRecord)
  | pickledLen (n : Nat)
deriving DecidableEq, Repr

/-- Whether a stored value is a serialized graph record (as opposed to a
serialized plain integer). -/
def StoredVal.isGraphRecord : StoredVal → Bool
  | .is2re _ => true
  | .s2ef _ => true
  | .pickledLen _ => false

/-- One committed `txn.put`: the key bytes (the ASCII encoding of a
string) and the pickled value. -/
structure StoreEntry where
  key : String
  val : StoredVal
deriving DecidableEq, Repr

/-- Python errors the embedded cells can raise. -/
inductive PyErr where
  | nameError (n : String)
  | indexError
deriving DecidableEq, Repr

/-- Whether a name is bound in the notebook's global scope. -/
def boundIn (env : List String) (n : String) : Bool :=
  env.contains n

/-- The names bound at top level in the dataset-creation notebook by the
cells that run before and inside the writing loops (imports and
assignments).  `traj_path` is not among them: it occurs only as a
parameter of `read_trajectory_extract_features`, local to that function. -/
def lmdbNotebookGlobals : List String :=
  [ "AtomsToGraphs", "SinglePointLmdbDataset", "TrajectoryLmdbDataset"
  , "ase", "bulk", "fcc100", "add_adsorbate", "molecule", "FixAtoms"
  , "EMT", "BFGS", "plt", "lmdb", "pickle", "tqdm", "torch", "os"
  , "adslab", "ads", "cons", "dyn", "raw_data", "a2g", "db"
  , "read_trajectory_extract_features", "system_paths", "idx"
  , "system", "data_objects", "initial_struc", "relaxed_struc", "txn"
  , "tags", "fid", "data", "dataset", "energies" ]

/-- Model of `read_trajectory_extract_features(a2g, traj_path)`: read the
trajectory, take its first and last frames, convert both, and overwrite
both tag tensors with the first frame's tags.  Indexing `traj[0]` on an
empty trajectory raises IndexError. -/
def readTrajectoryExtractFeatures (convert : AseAtoms → GraphData) :
    List AseAtoms → Except PyErr (GraphData × GraphData)
  | [] => .error .indexError
  | a :: rest =>
    let lastFrame := (a :: rest).getLast (List.cons_ne_nil a rest)
    let d0 := { convert a with dataTags := a.atomTags }
    let d1 := { convert lastFrame with dataTags := a.atomTags }
    .ok (d0, d1)

/-- The in-place mutations the IS2RE loop body performs on
`initial_struc` before the put, given the running index `idx`. -/
def mkInitialStrucRecord (initial relaxed : GraphData) (idx : Nat) :
    Is2reRecord :=
  { atomic_numbers := initial.atomic_numbers
  , pos := initial.pos
  , natoms := initial.natoms
  , edge_index := initial.edge_index
  , force := initial.force
  , fixed := initial.fixed
  , dataTags := initial.dataTags
  , y_init := initial.y
  , y_relaxed := relaxed.y
  , pos_relaxed := relaxed.pos
  , sid := idx }

/-- The IS2RE writing loop (the `for system in system_paths` cell).  For
each system the features are extracted, the record is assembled with
`sid = idx`; a record with an empty edge set reaches
`print("no neighbors", traj_path)`, whose evaluation of the unbound name
`traj_path` raises NameError (a bound `traj_path` would let the `continue`
skip the record); otherwise the record is put at the ASCII key of `idx`
and `idx` is incremented.  Returns the committed puts in order together
with the final value of `idx`. -/
def is2reWriteLoop (convert : AseAtoms → GraphData)
    (readFile : String → List AseAtoms) (env : List String) :
    List String → Nat → Except PyErr (List StoreEntry × Nat)
  | [], idx => .ok ([], idx)
  | sys :: rest, idx =>
    match readTrajectoryExtractFeatures convert (readFile sys) with
    | .error e => .error e
    | .ok (initial, relaxed) =>
      let r := mkInitialStrucRecord initial relaxed idx
      if r.edge_index.length = 0 then
        if boundIn env "traj_path" then
          is2reWriteLoop convert readFile env rest idx
        else
          .error (.nameError "traj_path")
      else
        match is2reWriteLoop convert readFile env rest (idx + 1) with
        | .error e => .error e
        | .ok (ps, finalIdx) =>
          .ok ({ key := toString idx, val := .is2re r } :: ps, finalIdx)

/-- The S2EF record assembly for one frame of the trajectory. -/
def mkS2efFrameRecord (d : GraphData) (fid : Nat) (trajTags : List ℤ) :
    S2efRecord :=
  { atomic_numbers := d.atomic_numbers
  , pos := d.pos
  , natoms := d.natoms
  , edge_index := d.edge_index
  , y := d.y
  , force := d.force
  , fixed := d.fixed
  , dataTags := trajTags
  , sid := [0]
  , fid := [(fid : ℤ)] }

/-- The S2EF writing loop (`for fid, data in enumerate(data_objects)`).
The enumerate counter advances on every frame, written or skipped; a frame
with an empty edge set reaches the same unbound `traj_path` and raises
NameError. -/
def s2efWriteLoop (env : List String) (trajTags : List ℤ) :
    List GraphData → Nat → Except PyErr (List StoreEntry)
  | [], _ => .ok []
  | d :: rest, fid =>
    let r := mkS2efFrameRecord d fid trajTags
    if r.edge_index.length = 0 then
      if boundIn env "traj_path" then
        s2efWriteLoop env trajTags rest (fid + 1)
      else
        .error (.nameError "traj_path")
    else
      match s2efWriteLoop env trajTags rest (fid + 1) with
      | .error e => .error e
      | .ok ps => .ok ({ key := toString fid, val := .s2ef r } :: ps)

/-- The whole S2EF writing cell: take the tags of `raw_data[0]`
(IndexError when empty), convert every frame, run the loop from
`fid = 0`, and finally put the pickled frame count under the key
`length`. -/
def s2efWriteCell (convert : AseAtoms → GraphData) (env : List String)
    (rawData : List AseAtoms) : Except PyErr (List StoreEntry) :=
  match rawData with
  | [] => .error .indexError
  | a :: rest =>
    let trajTags := a.atomTags
    let ds := (a :: rest).map convert
    match s2efWriteLoop env trajTags ds 0 with
    | .error e => .error e
    | .ok ps => .ok (ps ++ [{ key := "length", val := .pickledLen ds.length }])

/-! ## The store and the external dataset readers

The store file contents are the committed puts in order; all keys written
by the demo are distinct, so the list is the key-value map.  The two
dataset classes live in the external OCP codebase and are not part of this
repository; they are modelled from the specification's description of the
on-disk layout. -/

/-- First entry of the store holding the given key. -/
def lookupFirst : List StoreEntry → String → Option StoredVal
  | [], _ => none
  | e :: rest, k => if e.key = k then some e.val else lookupFirst rest k

/-- The graph-record entries of a store, in order (the S2EF metadata entry
holding the pickled frame count is not a graph record). -/
def graphEntries (s : List StoreEntry) : List StoreEntry :=
  s.filter (fun e => e.val.isGraphRecord)

/-- Modelled from the spec: `SinglePointLmdbDataset`, the external OCP
reader for a single-file store, absent from this repository.  Per the
spec's layout (records addressed by string-encoded integer keys, read back
for display), its length is the number of records in the file and item `i`
is the record stored at the ASCII key of `i`. -/
def singlePointLmdbLen (s : List StoreEntry) : Nat :=
  s.length

/-- Modelled from the spec: item access of `SinglePointLmdbDataset` (see
`singlePointLmdbLen`). -/
def singlePointLmdbGet (s : List StoreEntry) (i : Nat) : Option StoredVal :=
  lookupFirst s (toString i)

/-- Record count of one S2EF shard: the pickled integer stored under the
`length` key (the last such entry, puts overwriting earlier ones). -/
def shardLen (s : List StoreEntry) : Option Nat :=
  match (s.filter (fun e => e.key = "length")).getLast? with
  | some e =>
    match e.val with
    | .pickledLen n => some n
    | _ => none
  | none => none

/-- Modelled from the spec: the length of `TrajectoryLmdbDataset`, the
external OCP reader for a sharded directory of stores, absent from this
repository.  Its length sums the per-shard record counts stored under the
`length` keys. -/
def trajectoryLmdbLen (shards : List (List StoreEntry)) : Option Nat :=
  shards.foldr
    (fun s acc =>
      match shardLen s, acc with
      | some n, some m => some (n + m)
      | _, _ => none)
    (some 0)

/-- Modelled from the spec: frame access of `TrajectoryLmdbDataset` within
one shard: the graph record stored at the ASCII key of `i`. -/
def trajectoryLmdbGetFrame (s : List StoreEntry) (i : Nat) : Option StoredVal :=
  lookupFirst (graphEntries s) (toString i)

/-! ## Python heap model for `copy.deepcopy`

The two training notebooks build their GNN configuration as a Python dict
with nested dicts and pass `copy.deepcopy(model)` to the first trainer
constructor so that the `model` variable can be reused later.  Dicts are
heap objects referenced by address; primitives are immutable.  The heap is
the list of allocated objects, the address of an object being its index;
allocation appends.  `deepcopyVal` is fuelled because an arbitrary Python
heap may be cyclic. -/

/-- An immutable Python primitive value. -/
inductive PyPrim where
  | int (n : ℤ)
  | num (q : ℚ)
  | str (s : String)
  | bool (b : Bool)
deriving DecidableEq, Repr

/-- A Python value: a primitive or a reference to a heap object. -/
inductive PyVal where
  | prim (p : PyPrim)
  | ref (a : Nat)
deriving DecidableEq, Repr

/-- The heap: allocated dict objects, address = index. -/
structure PyHeap where
  objs : List (List (String × PyVal))
deriving DecidableEq, Repr

/-- A fully dereferenced value, for observing what a variable denotes. -/
inductive PyTree where
  | prim (p : PyPrim)
  | dict (fields : List (String × PyTree))

/-- Dereference each field value with `rd`. -/
def readFields (rd : PyVal → Option PyTree) :
    List (String × PyVal) → Option (List (String × PyTree))
  | [] => some []
  | (k, v) :: rest =>
    match rd v with
    | none => none
    | some t =>
      match readFields rd rest with
      | none => none
      | some ts => some ((k, t) :: ts)

/-- Fully dereference a value in a heap (`none` on dangling references or
fuel exhaustion). -/
def readVal : Nat → PyHeap → PyVal → Option PyTree
  | _, _, .prim p => some (.prim p)
  | 0, _, .ref _ => none
  | fuel + 1, h, .ref a =>
    match h.objs.get? a with
    | none => none
    | some o =>
      match readFields (fun v => readVal fuel h v) o with
      | none => none
      | some fs => some (.dict fs)

/-- Addresses reachable from each field value, via `rc`. -/
def reachFields (rc : PyVal → List Nat) : List (String × PyVal) → List Nat
  | [] => []
  | kv :: rest => rc kv.2 ++ reachFields rc rest

/-- Addresses reachable from a value in a heap, up to the given depth. -/
def reachVal : Nat → PyHeap → PyVal → List Nat
  | _, _, .prim _ => []
  | 0, _, .ref a => [a]
  | fuel + 1, h, .ref a =>
    a ::
      (match h.objs.get? a with
       | none => []
       | some o => reachFields (fun v => reachVal fuel h v) o)

/-- Copy each field value with `dc`, threading the heap. -/
def copyFields (dc : PyHeap → PyVal → Option (PyHeap × PyVal)) :
    PyHeap → List (String × PyVal) → Option (PyHeap × List (String × PyVal))
  | h, [] => some (h, [])
  | h, (k, v) :: rest =>
    match dc h v with
    | none => none
    | some (h1, v1) =>
      match copyFields dc h1 rest with
      | none => none
      | some (h2, fs) => some (h2, (k, v1) :: fs)

/-- Model of `copy.deepcopy`: primitives are shared, dict objects are
copied recursively, each copy being a fresh allocation. -/
def deepcopyVal : Nat → PyHeap → PyVal → Option (PyHeap × PyVal)
  | _, h, .prim p => some (h, .prim p)
  | 0, _, .ref _ => none
  | fuel + 1, h, .ref a =>
    match h.objs.get? a with
    | none => none
    | some o =>
      match copyFields (fun h2 v => deepcopyVal fuel h2 v) h o with
      | none => none
      | some (h1, fs) => some ({ objs := h1.objs ++ [fs] }, .ref h1.objs.length)

/-- Heaps agreeing on every address below `n`. -/
def heapAgreeBelow (h1 h2 : PyHeap) (n : Nat) : Prop :=
  ∀ a, a < n → h2.objs.get? a = h1.objs.get? a

/-- Every address reachable from `v` in `h`, at any depth, lies below
`n`. -/
def valClosedBelow (h : PyHeap) (v : PyVal) (n : Nat) : Prop :=
  ∀ f a, a ∈ reachVal f h v → a < n

/-- Fields of the `rbf` sub-dict of the GNN configuration. -/
def rbfFields : List (String × PyVal) :=
  [("name", .prim (.str "gaussian"))]

/-- Fields of the `envelope` sub-dict of the GNN configuration. -/
def envelopeFields : List (String × PyVal) :=
  [("name", .prim (.str "polynomial")), ("exponent", .prim (.int 5))]

/-- Fields of the `cbf` sub-dict of the GNN configuration. -/
def cbfFields : List (String × PyVal) :=
  [("name", .prim (.str "spherical_harmonics"))]

/-- Fields of the `model` dict of the S2EF training notebook; the three
sub-dicts are allocated at addresses 0, 1, 2 in literal order. -/
def s2efModelFields : List (String × PyVal) :=
  [ ("name", .prim (.str "gemnet_t"))
  , ("num_spherical", .prim (.int 7))
  , ("num_radial", .prim (.int 128))
  , ("num_blocks", .prim (.int 3))
  , ("emb_size_atom", .prim (.int 512))
  , ("emb_size_edge", .prim (.int 512))
  , ("emb_size_trip", .prim (.int 64))
  , ("emb_size_rbf", .prim (.int 16))
  , ("emb_size_cbf", .prim (.int 16))
  , ("emb_size_bil_trip", .prim (.int 64))
  , ("num_before_skip", .prim (.int 1))
  , ("num_after_skip", .prim (.int 2))
  , ("num_concat", .prim (.int 1))
  , ("num_atom", .prim (.int 3))
  , ("cutoff", .prim (.num 6))
  , ("max_neighbors", .prim (.int 50))
  , ("rbf", .ref 0)
  , ("envelope", .ref 1)
  , ("cbf", .ref 2)
  , ("extensive", .prim (.bool true))
  , ("otf_graph", .prim (.bool false))
  , ("output_init", .prim (.str "HeOrthogonal"))
  , ("activation", .prim (.str "silu"))
  , ("scale_file", .prim (.str "configs/s2ef/all/gemnet/scaling_factors/gemnet-dT.json"))
  , ("regress_forces", .prim (.bool true))
  , ("direct_forces", .prim (.bool true)) ]

/-- The heap after the S2EF notebook evaluates its `model` dict literal:
sub-dicts at addresses 0, 1, 2 and the model dict itself at address 3. -/
def s2efModelHeap : PyHeap :=
  { objs := [rbfFields, envelopeFields, cbfFields, s2efModelFields] }

/-- Fields of the `model` dict of the IS2RE training notebook. -/
def is2reModelFields : List (String × PyVal) :=
  [ ("name", .prim (.str "gemnet_t"))
  , ("num_spherical", .prim (.int 7))
  , ("num_radial", .prim (.int 64))
  , ("num_blocks", .prim (.int 5))
  , ("emb_size_atom", .prim (.int 256))
  , ("emb_size_edge", .prim (.int 512))
  , ("emb_size_trip", .prim (.int 64))
  , ("emb_size_rbf", .prim (.int 16))
  , ("emb_size_cbf", .prim (.int 16))
  , ("emb_size_bil_trip", .prim (.int 64))
  , ("num_before_skip", .prim (.int 1))
  , ("num_after_skip", .prim (.int 2))
  , ("num_concat", .prim (.int 1))
  , ("num_atom", .prim (.int 3))
  , ("cutoff", .prim (.num 6))
  , ("max_neighbors", .prim (.int 50))
  , ("rbf", .ref 0)
  , ("envelope", .ref 1)
  , ("cbf", .ref 2)
  , ("extensive", .prim (.bool true))
  , ("otf_graph", .prim (.bool false))
  , ("output_init", .prim (.str "HeOrthogonal"))
  , ("activation", .prim (.str "silu"))
  , ("scale_file", .prim (.str "configs/s2ef/all/gemnet/scaling_factors/gemnet-dT.json"))
  , ("regress_forces", .prim (.bool false))
  , ("direct_forces", .prim (.bool false)) ]

/-- The heap after the IS2RE notebook evaluates its `model` dict
literal. -/
def is2reModelHeap : PyHeap :=
  { objs := [rbfFields, envelopeFields, cbfFields, is2reModelFields] }

/-! ## Auxiliary definitions for the proofs -/

/-- Decimal value of a digit-character list, the inverse of
`Nat.toDigits 10`; used to show that distinct indices get distinct store
keys. -/
def decVal : List Char → Nat → Nat
  | [], acc => acc
  | c :: cs, acc => decVal cs (acc * 10 + (c.toNat - 48))

/-- A heap is closed when every reference stored in any of its objects
points at an allocated object. -/
def heapClosedB (h : PyHeap) : Bool :=
  h.objs.all fun o =>
    o.all fun kv =>
      match kv.2 with
      | .prim _ => true
      | .ref a => a < h.objs.length

/-- Two concrete ASE frames standing for the initial and relaxed ends of
the demo `CuCO_adslab.traj` trajectory. -/
def demoAtomsA : AseAtoms :=
  { numbers := [29, 8], positions := [(0, 0, 0), (1, 0, 0)], atomTags := [1, 2] }

/-- Second demo frame (see `demoAtomsA`). -/
def demoAtomsB : AseAtoms :=
  { numbers := [29, 8], positions := [(0, 0, 0), (2, 0, 0)], atomTags := [1, 2] }

/-- The demo trajectory. -/
def demoTraj : List AseAtoms :=
  [demoAtomsA, demoAtomsB]

/-- A concrete stand-in for the external `AtomsToGraphs` conversion that
produces a two-edge graph. -/
def demoConvert (a : AseAtoms) : GraphData :=
  { atomic_numbers := a.numbers
  , pos := a.positions
  , natoms := a.numbers.length
  , edge_index := [(0, 1), (1, 0)]
  , y := 3
  , force := [(0, 0, 0), (0, 0, 0)]
  , fixed := [true, false]
  , dataTags := a.atomTags }

/-- A conversion producing an empty edge set (the zero-neighbor edge
case). -/
def demoConvertNoEdges (a : AseAtoms) : GraphData :=
  { demoConvert a with edge_index := [] }

/-- A stand-in for trajectory-file reading that returns the demo
trajectory for any path. -/
def demoReadFile (_ : String) : List AseAtoms :=
  demoTraj

/-- The puts of the IS2RE demo run on the demo trajectory. -/
def demoIs2rePuts : List StoreEntry :=
  [ { key := "0"
    , val := .is2re (mkInitialStrucRecord
        { demoConvert demoAtomsA with dataTags := demoAtomsA.atomTags }
        { demoConvert demoAtomsB with dataTags := demoAtomsA.atomTags } 0) } ]

/-- The copy of the S2EF model dict produced by `copy.deepcopy`: the same
fields with the sub-dict references redirected to the fresh copies at
addresses 4, 5, 6. -/
def s2efCopiedModelFields : List (String × PyVal) :=
  s2efModelFields.map fun kv =>
    match kv.2 with
    | .ref 0 => (kv.1, .ref 4)
    | .ref 1 => (kv.1, .ref 5)
    | .ref 2 => (kv.1, .ref 6)
    | _ => kv

/-- The heap after `copy.deepcopy(model)` in the S2EF notebook: the four
original objects followed by the four copies. -/
def s2efCopiedHeap : PyHeap :=
  { objs :=
    [ rbfFields, envelopeFields, cbfFields, s2efModelFields
    , rbfFields, envelopeFields, cbfFields, s2efCopiedModelFields ] }

/-! ## Injectivity of the decimal store-key encoding -/

lemma toDigitsCore_append (f : Nat) : ∀ (n : Nat) (ds : List Char),
    Nat.toDigitsCore 10 f n ds = Nat.toDigitsCore 10 f n [] ++ ds := by
  induction f with
  | zero => intro n ds; simp [Nat.toDigitsCore]
  | succ f ih =>
    intro n ds
    simp only [Nat.toDigitsCore]
    by_cases h : n / 10 = 0
    · simp [h]
    · simp only [h, if_false]
      rw [ih (n / 10) (Nat.digitChar (n % 10) :: ds),
        ih (n / 10) [Nat.digitChar (n % 10)]]
      simp

lemma decVal_append (xs : List Char) : ∀ (ys : List Char) (acc : Nat),
    decVal (xs ++ ys) acc = decVal ys (decVal xs acc) := by
  induction xs with
  | nil => intro ys acc; rfl
  | cons c cs ih => intro ys acc; exact ih ys (acc * 10 + (c.toNat - 48))

lemma digitChar_val (d : Nat) (h : d < 10) : (Nat.digitChar d).toNat - 48 = d := by
  interval_cases d <;> rfl

lemma decVal_toDigitsCore (f : Nat) : ∀ n acc, n < f →
    decVal (Nat.toDigitsCore 10 f n []) acc =
      acc * 10 ^ (Nat.toDigitsCore 10 f n []).length + n := by
  induction f with
  | zero => intro n acc h; omega
  | succ f ih =>
    intro n acc h
    by_cases h0 : n / 10 = 0
    · have hn : n < 10 := by omega
      have hmod : n % 10 = n := Nat.mod_eq_of_lt hn
      simp only [Nat.toDigitsCore, h0, if_true, decVal, List.length_cons,
        List.length_nil]
      rw [digitChar_val (n % 10) (Nat.mod_lt n (by norm_num))]
      rw [hmod, pow_one]
    · have h10 : 10 ≤ n := by
        rcases Nat.lt_or_ge n 10 with hlt | hge
        · exact absurd (Nat.div_eq_of_lt hlt) h0
        · exact hge
      have hrec : Nat.toDigitsCore 10 (f + 1) n [] =
          Nat.toDigitsCore 10 f (n / 10) [Nat.digitChar (n % 10)] := by
        simp [Nat.toDigitsCore, h0]
      have hdivlt : n / 10 < f := by
        have h1 : n / 10 < n := Nat.div_lt_self (by omega) (by norm_num)
        omega
      rw [hrec, toDigitsCore_append, decVal_append,
        ih (n / 10) acc hdivlt, List.length_append]
      simp only [decVal, List.length_cons, List.length_nil]
      rw [digitChar_val (n % 10) (Nat.mod_lt n (by omega))]
      have hdm : 10 * (n / 10) + n % 10 = n := Nat.div_add_mod n 10
      rw [pow_succ]
      ring_nf
      omega

lemma decVal_toDigits (n : Nat) : decVal (Nat.toDigits 10 n) 0 = n := by
  have h := decVal_toDigitsCore (n + 1) n 0 (Nat.lt_succ_self n)
  simpa [Nat.toDigits] using h

lemma natToString_injective (m n : Nat) (h : toString m = toString n) : m = n := by
  have hm : Nat.repr m = Nat.repr n := h
  have hl : Nat.toDigits 10 m = Nat.toDigits 10 n := by
    have hd := congrArg String.data hm
    simpa [Nat.repr, List.asString] using hd
  have hv := congrArg (fun l => decVal l 0) hl
  simpa [decVal_toDigits] using hv

/-! ## Characterization of the writing loops -/

lemma is2re_loop_entries (convert : AseAtoms → GraphData)
    (readFile : String → List AseAtoms) (env : List String) :
    ∀ (sys : List String) (idx : Nat) (ps : List StoreEntry) (fin : Nat),
      is2reWriteLoop convert readFile env sys idx = .ok (ps, fin) →
      fin = idx + ps.length ∧
      ∀ i (hi : i < ps.length), ∃ r : Is2reRecord,
        ps.get ⟨i, hi⟩ = { key := toString (idx + i), val := .is2re r } ∧
        r.sid = idx + i := by
  intro sys
  induction sys with
  | nil =>
    intro idx ps fin h
    simp only [is2reWriteLoop, Except.ok.injEq, Prod.mk.injEq] at h
    obtain ⟨hps, hfin⟩ := h
    subst hps; subst hfin
    exact ⟨by simp, fun i hi => absurd hi (by simp)⟩
  | cons s rest ih =>
    intro idx ps fin h
    simp only [is2reWriteLoop] at h
    cases hread : readTrajectoryExtractFeatures convert (readFile s) with
    | error e =>
      simp only [hread] at h
      exact Except.noConfusion h
    | ok pr =>
      obtain ⟨initial, relaxed⟩ := pr
      simp only [hread] at h
      by_cases hz : (mkInitialStrucRecord initial relaxed idx).edge_index.length = 0
      · simp only [hz, if_true] at h
        by_cases hb : boundIn env "traj_path"
        · simp only [hb, if_true] at h
          obtain ⟨hfin, hent⟩ := ih idx ps fin h
          exact ⟨hfin, hent⟩
        · simp only [hb, if_false] at h
          exact Except.noConfusion h
      · simp only [hz, if_false] at h
        cases hrec : is2reWriteLoop convert readFile env rest (idx + 1) with
        | error e =>
          simp only [hrec] at h
          exact Except.noConfusion h
        | ok pr' =>
          obtain ⟨ps', fin'⟩ := pr'
          simp only [hrec, Except.ok.injEq, Prod.mk.injEq] at h
          obtain ⟨hps, hfin⟩ := h
          subst hfin
          obtain ⟨hfin', hent⟩ := ih (idx + 1) ps' fin' hrec
          subst hps
          constructor
          · simp only [List.length_cons]
            omega
          · intro i hi
            cases i with
            | zero =>
              refine ⟨mkInitialStrucRecord initial relaxed idx, ?_, rfl⟩
              simp
            | succ j =>
              have hj : j < ps'.length := by
                simpa [Nat.succ_lt_succ_iff] using hi
              obtain ⟨r, hr, hs⟩ := hent j hj
              have e : idx + 1 + j = idx + (j + 1) := by omega
              rw [e] at hr hs
              refine ⟨r, ?_, hs⟩
              simpa using hr

lemma s2ef_loop_entries (env : List String) (trajTags : List ℤ) :
    ∀ (ds : List GraphData) (fid : Nat) (ps : List StoreEntry),
      s2efWriteLoop env trajTags ds fid = .ok ps →
      ∀ p ∈ ps, ∃ (i : Nat) (r : S2efRecord),
        p = { key := toString i, val := .s2ef r } ∧ r.fid = [(i : ℤ)] := by
  intro ds
  induction ds with
  | nil =>
    intro fid ps h
    simp only [s2efWriteLoop, Except.ok.injEq] at h
    subst h
    intro p hp
    simp at hp
  | cons d rest ih =>
    intro fid ps h
    simp only [s2efWriteLoop] at h
    by_cases hz : (mkS2efFrameRecord d fid trajTags).edge_index.length = 0
    · simp only [hz, if_true] at h
      by_cases hb : boundIn env "traj_path"
      · simp only [hb, if_true] at h
        exact ih (fid + 1) ps h
      · simp only [hb, if_false] at h
        exact Except.noConfusion h
    · simp only [hz, if_false] at h
      cases hrec : s2efWriteLoop env trajTags rest (fid + 1) with
      | error e =>
        simp only [hrec] at h
        exact Except.noConfusion h
      | ok ps' =>
        simp only [hrec, Except.ok.injEq] at h
        subst h
        intro p hp
        rcases List.mem_cons.mp hp with hp0 | hp'
        · subst hp0
          exact ⟨fid, mkS2efFrameRecord d fid trajTags, rfl, rfl⟩
        · exact ih (fid + 1) ps' hrec p hp'

lemma s2ef_loop_noskip (env : List String)
    (henv : boundIn env "traj_path" = false) (trajTags : List ℤ) :
    ∀ (ds : List GraphData) (fid : Nat) (ps : List StoreEntry),
      s2efWriteLoop env trajTags ds fid = .ok ps →
      ps.length = ds.length ∧
      ∀ i (hi : i < ps.length), ∃ r : S2efRecord,
        ps.get ⟨i, hi⟩ = { key := toString (fid + i), val := .s2ef r } := by
  intro ds
  induction ds with
  | nil =>
    intro fid ps h
    simp only [s2efWriteLoop, Except.ok.injEq] at h
    subst h
    exact ⟨rfl, fun i hi => absurd hi (by simp)⟩
  | cons d rest ih =>
    intro fid ps h
    simp only [s2efWriteLoop] at h
    by_cases hz : (mkS2efFrameRecord d fid trajTags).edge_index.length = 0
    · simp only [hz, if_true, henv, if_false] at h
      exact Except.noConfusion h
    · simp only [hz, if_false] at h
      cases hrec : s2efWriteLoop env trajTags rest (fid + 1) with
      | error e =>
        simp only [hrec] at h
        exact Except.noConfusion h
      | ok ps' =>
        simp only [hrec, Except.ok.injEq] at h
        subst h
        obtain ⟨hlen, hent⟩ := ih (fid + 1) ps' hrec
        constructor
        · simp [hlen]
        · intro i hi
          cases i with
          | zero =>
            exact ⟨mkS2efFrameRecord d fid trajTags, by simp⟩
          | succ j =>
            have hj : j < ps'.length := by
              simpa [Nat.succ_lt_succ_iff] using hi
            obtain ⟨r, hr⟩ := hent j hj
            have e : fid + 1 + j = fid + (j + 1) := by omega
            rw [e] at hr
            exact ⟨r, by simpa using hr⟩

lemma lookupFirst_keyed : ∀ (ps : List StoreEntry) (start : Nat),
    (∀ i (hi : i < ps.length), (ps.get ⟨i, hi⟩).key = toString (start + i)) →
    ∀ i (hi : i < ps.length),
      lookupFirst ps (toString (start + i)) = some (ps.get ⟨i, hi⟩).val := by
  intro ps
  induction ps with
  | nil => intro start _ i hi; simp at hi
  | cons e rest ih =>
    intro start hkeys i hi
    have hek : e.key = toString start := by
      have h0 := hkeys 0 (by simp)
      simpa using h0
    cases i with
    | zero =>
      simp only [lookupFirst, Nat.add_zero, hek, if_pos rfl]
      rfl
    | succ j =>
      have hne : e.key = toString (start + (j + 1)) → False := by
        rw [hek]
        intro hcontra
        have := natToString_injective _ _ hcontra
        omega
      have hkeys' : ∀ i (hi2 : i < rest.length),
          (rest.get ⟨i, hi2⟩).key = toString (start + 1 + i) := by
        intro i hi2
        have hk := hkeys (i + 1) (by simpa using Nat.succ_lt_succ hi2)
        have e2 : start + (i + 1) = start + 1 + i := by omega
        rw [e2] at hk
        simpa using hk
      have hj : j < rest.length := by
        simpa [Nat.succ_lt_succ_iff] using hi
      have hmain := ih (start + 1) hkeys' j hj
      simp only [lookupFirst, if_neg hne]
      have e3 : start + (j + 1) = start + 1 + j := by omega
      rw [e3]
      simpa using hmain

lemma graphEntries_append_len (qs : List StoreEntry) (m : Nat)
    (hq : ∀ p ∈ qs, p.val.isGraphRecord = true) :
    graphEntries (qs ++ [{ key := "length", val := .pickledLen m }]) = qs := by
  simp only [graphEntries, List.filter_append]
  rw [List.filter_eq_self.mpr hq]
  simp [StoredVal.isGraphRecord]

lemma shardLen_append (qs : List StoreEntry) (m : Nat) :
    shardLen (qs ++ [{ key := "length", val := .pickledLen m }]) = some m := by
  simp only [shardLen, List.filter_append]
  have hfilter : List.filter (fun e => decide (e.key = "length"))
      [({ key := "length", val := StoredVal.pickledLen m } : StoreEntry)] =
      [{ key := "length", val := StoredVal.pickledLen m }] := by simp
  rw [hfilter, List.getLast?_concat]

/-! ## Frame lemmas for the heap model -/

lemma mem_reachFields (rc : PyVal → List Nat) (l : List (String × PyVal))
    (a : Nat) : a ∈ reachFields rc l ↔ ∃ kv ∈ l, a ∈ rc kv.2 := by
  induction l with
  | nil => simp [reachFields]
  | cons kv rest ih =>
    simp only [reachFields, List.mem_append, ih, List.mem_cons]
    constructor
    · rintro (h | ⟨kv', hkv', ha⟩)
      · exact ⟨kv, Or.inl rfl, h⟩
      · exact ⟨kv', Or.inr hkv', ha⟩
    · rintro ⟨kv', hkv' | hkv', ha⟩
      · subst hkv'; exact Or.inl ha
      · exact Or.inr ⟨kv', hkv', ha⟩

lemma reachFields_congr (rc1 rc2 : PyVal → List Nat)
    (l : List (String × PyVal)) (h : ∀ kv ∈ l, rc2 kv.2 = rc1 kv.2) :
    reachFields rc2 l = reachFields rc1 l := by
  induction l with
  | nil => rfl
  | cons kv rest ih =>
    simp only [reachFields]
    rw [h kv (List.mem_cons_self kv rest), ih fun kv' hkv' => h kv' (List.mem_cons_of_mem kv hkv')]

lemma readFields_congr (rd1 rd2 : PyVal → Option PyTree)
    (l : List (String × PyVal)) (h : ∀ kv ∈ l, rd2 kv.2 = rd1 kv.2) :
    readFields rd2 l = readFields rd1 l := by
  induction l with
  | nil => rfl
  | cons kv rest ih =>
    obtain ⟨k, v⟩ := kv
    simp only [readFields]
    rw [h ⟨k, v⟩ (List.mem_cons_self _ rest), ih fun kv' hkv' => h kv' (List.mem_cons_of_mem _ hkv')]

lemma reach_child (f : Nat) (h : PyHeap) (a : Nat)
    (o : List (String × PyVal)) (ho : h.objs.get? a = some o)
    (kv : String × PyVal) (hkv : kv ∈ o) (b : Nat)
    (hb : b ∈ reachVal f h kv.2) : b ∈ reachVal (f + 1) h (.ref a) := by
  simp only [reachVal, ho]
  exact List.mem_cons_of_mem a ((mem_reachFields _ o b).mpr ⟨kv, hkv, hb⟩)

lemma reach_extension : ∀ (f : Nat) (h1 h2 : PyHeap) (v : PyVal) (n : Nat),
    heapAgreeBelow h1 h2 n → valClosedBelow h1 v n →
    reachVal f h2 v = reachVal f h1 v := by
  intro f
  induction f with
  | zero => intro h1 h2 v n _ _; cases v <;> rfl
  | succ f ih =>
    intro h1 h2 v n hag hcl
    cases v with
    | prim p => rfl
    | ref a =>
      have ha : a < n := hcl 0 a (by simp [reachVal])
      have hget : h2.objs.get? a = h1.objs.get? a := hag a ha
      cases ho : h1.objs.get? a with
      | none => simp only [reachVal, hget, ho]
      | some o =>
        have hflds : reachFields (fun v => reachVal f h2 v) o =
            reachFields (fun v => reachVal f h1 v) o := by
          apply reachFields_congr
          intro kv hkv
          apply ih h1 h2 kv.2 n hag
          intro f' b hb
          exact hcl (f' + 1) b (reach_child f' h1 a o ho kv hkv b hb)
        simp only [reachVal, hget, ho, hflds]

lemma read_extension : ∀ (f : Nat) (h1 h2 : PyHeap) (v : PyVal) (n : Nat),
    heapAgreeBelow h1 h2 n → valClosedBelow h1 v n →
    readVal f h2 v = readVal f h1 v := by
  intro f
  induction f with
  | zero => intro h1 h2 v n _ _; cases v <;> rfl
  | succ f ih =>
    intro h1 h2 v n hag hcl
    cases v with
    | prim p => rfl
    | ref a =>
      have ha : a < n := hcl 0 a (by simp [reachVal])
      have hget : h2.objs.get? a = h1.objs.get? a := hag a ha
      cases ho : h1.objs.get? a with
      | none => simp only [readVal, hget, ho]
      | some o =>
        have hflds : readFields (fun v => readVal f h2 v) o =
            readFields (fun v => readVal f h1 v) o := by
          apply readFields_congr
          intro kv hkv
          apply ih h1 h2 kv.2 n hag
          intro f' b hb
          exact hcl (f' + 1) b (reach_child f' h1 a o ho kv hkv b hb)
        simp only [readVal, hget, ho, hflds]

lemma valClosedBelow_of_heapClosed (h : PyHeap) (hc : heapClosedB h = true) :
    ∀ (f : Nat) (v : PyVal), (∀ a, v = .ref a → a < h.objs.length) →
    ∀ b, b ∈ reachVal f h v → b < h.objs.length := by
  intro f
  induction f with
  | zero =>
    intro v hv b hb
    cases v with
    | prim p => simp [reachVal] at hb
    | ref a =>
      simp only [reachVal, List.mem_singleton] at hb
      rw [hb]
      exact hv a rfl
  | succ f ih =>
    intro v hv b hb
    cases v with
    | prim p => simp [reachVal] at hb
    | ref a =>
      cases ho : h.objs.get? a with
      | none =>
        simp only [reachVal, ho, List.mem_singleton] at hb
        rw [hb]
        exact hv a rfl
      | some o =>
        simp only [reachVal, ho] at hb
        rcases List.mem_cons.mp hb with hb0 | hb'
        · rw [hb0]; exact hv a rfl
        · obtain ⟨kv, hkv, hkvb⟩ := (mem_reachFields _ o b).mp hb'
          apply ih kv.2 ?_ b hkvb
          intro c hc2
          have hco : o ∈ h.objs := List.get?_mem ho
          have hall := (List.all_eq_true.mp hc) o hco
          have hkvall := (List.all_eq_true.mp hall) kv hkv
          rw [hc2] at hkvall
          simpa using hkvall

lemma copyFields_spec (dc : PyHeap → PyVal → Option (PyHeap × PyVal))
    (Hdc : ∀ hh vv hh' vv', dc hh vv = some (hh', vv') →
      (∃ ext, hh'.objs = hh.objs ++ ext) ∧
      (∀ f a, a ∈ reachVal f hh' vv' →
        hh.objs.length ≤ a ∧ a < hh'.objs.length)) :
    ∀ (l : List (String × PyVal)) (h h' : PyHeap)
      (l' : List (String × PyVal)),
      copyFields dc h l = some (h', l') →
      (∃ ext, h'.objs = h.objs ++ ext) ∧
      (∀ kv ∈ l', ∀ f a, a ∈ reachVal f h' kv.2 →
        h.objs.length ≤ a ∧ a < h'.objs.length) := by
  intro l
  induction l with
  | nil =>
    intro h h' l' hcf
    simp only [copyFields, Option.some.injEq, Prod.mk.injEq] at hcf
    obtain ⟨rfl, rfl⟩ := hcf
    exact ⟨⟨[], by simp⟩, fun kv hkv => absurd hkv (by simp)⟩
  | cons kv rest ih =>
    intro h h' l' hcf
    obtain ⟨k, v⟩ := kv
    simp only [copyFields] at hcf
    cases hdc : dc h v with
    | none =>
      simp only [hdc] at hcf
      exact Option.noConfusion hcf
    | some pr =>
      obtain ⟨h1, v1⟩ := pr
      simp only [hdc] at hcf
      cases hcf2 : copyFields dc h1 rest with
      | none =>
        simp only [hcf2] at hcf
        exact Option.noConfusion hcf
      | some pr2 =>
        obtain ⟨h2, fs⟩ := pr2
        simp only [hcf2, Option.some.injEq, Prod.mk.injEq] at hcf
        obtain ⟨rfl, rfl⟩ := hcf
        obtain ⟨⟨e1, he1⟩, hb1⟩ := Hdc h v h1 v1 hdc
        obtain ⟨⟨e2, he2⟩, hb2⟩ := ih h1 h2 fs hcf2
        have hlen1 : h.objs.length ≤ h1.objs.length := by
          rw [he1]; simp
        have hlen2 : h1.objs.length ≤ h2.objs.length := by
          rw [he2]; simp
        constructor
        · exact ⟨e1 ++ e2, by rw [he2, he1, List.append_assoc]⟩
        · intro kv' hkv' f a ha
          rcases List.mem_cons.mp hkv' with hkv0 | hmem
          · subst hkv0
            have hagree : heapAgreeBelow h1 h2 h1.objs.length := by
              intro b hb
              rw [he2]
              exact List.get?_append hb
            have hcl : valClosedBelow h1 v1 h1.objs.length :=
              fun f' b hb => (hb1 f' b hb).2
            rw [reach_extension f h1 h2 v1 h1.objs.length hagree hcl] at ha
            obtain ⟨hle, hlt⟩ := hb1 f a ha
            exact ⟨hle, lt_of_lt_of_le hlt hlen2⟩
          · obtain ⟨hle, hlt⟩ := hb2 kv' hmem f a ha
            exact ⟨le_trans hlen1 hle, hlt⟩

lemma deepcopy_spec : ∀ (fuel : Nat) (h : PyHeap) (v : PyVal)
    (h' : PyHeap) (v' : PyVal),
    deepcopyVal fuel h v = some (h', v') →
    (∃ ext, h'.objs = h.objs ++ ext) ∧
    (∀ f a, a ∈ reachVal f h' v' →
      h.objs.length ≤ a ∧ a < h'.objs.length) := by
  intro fuel
  induction fuel with
  | zero =>
    intro h v h' v' hdc
    cases v with
    | prim p =>
      simp only [deepcopyVal, Option.some.injEq, Prod.mk.injEq] at hdc
      obtain ⟨rfl, rfl⟩ := hdc
      exact ⟨⟨[], by simp⟩, fun f a ha => by cases f <;> simp [reachVal] at ha⟩
    | ref a =>
      simp only [deepcopyVal] at hdc
      exact Option.noConfusion hdc
  | succ fuel ih =>
    intro h v h' v' hdc
    cases v with
    | prim p =>
      simp only [deepcopyVal, Option.some.injEq, Prod.mk.injEq] at hdc
      obtain ⟨rfl, rfl⟩ := hdc
      exact ⟨⟨[], by simp⟩, fun f a ha => by cases f <;> simp [reachVal] at ha⟩
    | ref a =>
      simp only [deepcopyVal] at hdc
      cases ho : h.objs.get? a with
      | none =>
        simp only [ho] at hdc
        exact Option.noConfusion hdc
      | some o =>
        simp only [ho] at hdc
        cases hcf : copyFields (fun h2 v => deepcopyVal fuel h2 v) h o with
        | none =>
          simp only [hcf] at hdc
          exact Option.noConfusion hdc
        | some pr =>
          obtain ⟨h1, fs⟩ := pr
          simp only [hcf, Option.some.injEq, Prod.mk.injEq] at hdc
          obtain ⟨rfl, rfl⟩ := hdc
          obtain ⟨⟨e1, he1⟩, hfs⟩ :=
            copyFields_spec (fun h2 v => deepcopyVal fuel h2 v)
              (fun hh vv hh' vv' hd => ih hh vv hh' vv' hd) o h h1 fs hcf
          have hlen1 : h.objs.length ≤ h1.objs.length := by
            rw [he1]; simp
          have hlenS : h1.objs.length <
              ({ objs := h1.objs ++ [fs] } : PyHeap).objs.length := by
            simp
          refine ⟨⟨e1 ++ [fs], by simp only []; rw [he1, List.append_assoc]⟩, ?_⟩
          intro f a ha
          have hget : ({ objs := h1.objs ++ [fs] } : PyHeap).objs.get? h1.objs.length
              = some fs := by
            simp only []
            exact List.get?_concat_length h1.objs fs
          cases f with
          | zero =>
            simp only [reachVal, List.mem_singleton] at ha
            subst ha
            exact ⟨hlen1, hlenS⟩
          | succ f =>
            simp only [reachVal, hget] at ha
            rcases List.mem_cons.mp ha with ha0 | ha'
            · subst ha0
              exact ⟨hlen1, hlenS⟩
            · obtain ⟨kv, hkv, hb⟩ := (mem_reachFields _ fs a).mp ha'
              have hagree : heapAgreeBelow h1 { objs := h1.objs ++ [fs] }
                  h1.objs.length := by
                intro b hb2
                simp only []
                exact List.get?_append hb2
              have hcl : valClosedBelow h1 kv.2 h1.objs.length :=
                fun f' b hb2 => (hfs kv hkv f' b hb2).2
              rw [reach_extension f h1 _ kv.2 h1.objs.length hagree hcl] at hb
              obtain ⟨hle, hlt⟩ := hfs kv hkv f a hb
              exact ⟨hle, lt_trans hlt hlenS⟩

lemma deepcopy_frame (fuel f2 : Nat) (h h1 : PyHeap) (v v1 : PyVal)
    (hcopy : deepcopyVal fuel h v = some (h1, v1))
    (hclosed : valClosedBelow h v h.objs.length)
    (mutate : PyHeap → PyHeap)
    (hmut : ∀ a, a ∉ reachVal f2 h1 v1 →
      (mutate h1).objs.get? a = h1.objs.get? a)
    (g : Nat) : readVal g (mutate h1) v = readVal g h v := by
  obtain ⟨⟨ext, hext⟩, hfresh⟩ := deepcopy_spec fuel h v h1 v1 hcopy
  have hag1 : heapAgreeBelow h h1 h.objs.length := by
    intro b hb
    rw [hext]
    exact List.get?_append hb
  have hcl1 : valClosedBelow h1 v h.objs.length := by
    intro f b hb
    rw [reach_extension f h h1 v h.objs.length hag1 hclosed] at hb
    exact hclosed f b hb
  have hag2 : heapAgreeBelow h1 (mutate h1) h.objs.length := by
    intro b hb
    apply hmut
    intro hmem
    have := (hfresh f2 b hmem).1
    omega
  calc readVal g (mutate h1) v
      = readVal g h1 v := read_extension g h1 (mutate h1) v h.objs.length hag2 hcl1
    _ = readVal g h v := read_extension g h h1 v h.objs.length hag1 hclosed

/-! ## Claim theorems -/

/-- C6: the table of contents declares a single reading sequence for the
site: it is rooted at the intro document, groups the chapters into five
captioned parts, and maps each listed source document to exactly one
position in the sequence (no document appears twice). -/
theorem toc_single_reading_sequence :
    toc.root = "intro" ∧
    toc.parts.map TocPart.caption =
      [ "Background"
      , "Quick-start using pre-trained models"
      , "Using the OCP datasets"
      , "Training ML models for OCP tasks"
      , "Using OCP with your own datasets" ] ∧
    (tocSequence toc).Nodup := by
  decide

/-- C3: the deploy workflow is triggered exactly on push to the main
branch and performs, in order: checkout, provisioning the fixed conda
environment (myenv.yml), the two steps installing the external OCP
packages from their upstream sources, the jupyter-book build of the site,
and the publication of ml-catalysis-tutorials/_build/html via the
gh-pages deployment action. -/
theorem deploy_workflow_pipeline :
    deployWorkflow.onPush = some { branches := ["main"] } ∧
    deployWorkflow.otherTriggers = [] ∧
    deployWorkflow.steps.map WorkflowStep.kind =
      [ .checkout, .provisionCondaEnv, .installExternalFromSource
      , .installExternalFromSource, .buildSite, .publishSite ] ∧
    (deployWorkflow.steps.filter
      (fun s => s.kind == .installExternalFromSource)).length = 2 ∧
    (∃ s ∈ deployWorkflow.steps, s.kind = .provisionCondaEnv ∧
      ("environment-file", "myenv.yml") ∈ s.withParams) ∧
    (∃ s ∈ deployWorkflow.steps, s.kind = .buildSite ∧
      "jupyter-book build ml-catalysis-tutorials" ∈ s.runLines) ∧
    (∃ s ∈ deployWorkflow.steps, s.kind = .publishSite ∧
      s.usesAction = some "peaceiris/actions-gh-pages@v3" ∧
      ("publish_dir", "ml-catalysis-tutorials/_build/html") ∈ s.withParams) := by
  decide

/-- C2 counterexample: the claim that every tutorial notebook downloads
fixed external assets from hardcoded URLs is false — the relaxations
notebook (among others) performs no download. -/
theorem every_notebook_downloads_counterexample :
    ¬ (∀ nb ∈ notebookCorpus, nb.downloadURLs ≠ []) := by
  decide

/-- C2 (amended): five of the tutorial notebooks (the two ASE-calculator
demos, the dataset-interaction notebook, and the two training notebooks)
download fixed external assets — pretrained checkpoints or the sample
dataset tarball — from hardcoded URLs at run time; the remaining
notebooks (relaxations, background, ocp_tasks, data_preprocessing,
lmdb_dataset_creation) download nothing. -/
theorem notebook_downloads_split :
    (notebookCorpus.filter
        (fun nb => !nb.downloadURLs.isEmpty)).map NotebookInventory.nbName =
      [ "notes/pretrained_models/ase_calculator_demo"
      , "notes/pretrained_models/ase_calculator_demo_oc22"
      , "notes/ocp_datasets/interacting_with_datasets"
      , "notes/model_training/s2ef"
      , "notes/model_training/is2re" ] ∧
    (notebookCorpus.all fun nb =>
      nb.downloadURLs.all fun u => hardcodedAssetURLs.contains u) = true ∧
    relaxationsNb ∈ notebookCorpus ∧
    relaxationsNb.downloadURLs = [] := by
  decide

/-- C7: all code paths of the notebooks are single-threaded synchronous
scripting — no notebook uses a concurrency or cancellation primitive (the
`num_workers: 2` optimizer entries of the training notebooks are
configuration values handed to the external trainer, not notebook
concurrency constructs). -/
theorem notebooks_single_threaded :
    (notebookCorpus.all fun nb => nb.concurrencyPrimitives.isEmpty) = true := by
  decide

/-- C4 counterexample: the claim that no notebook code path inspects a
condition in order to branch around a failure mode is false — the
dataset-creation notebook's two writing loops each guard on a
zero-neighbor edge condition. -/
theorem no_failure_branch_counterexample :
    ¬ (∀ nb ∈ notebookCorpus,
        nb.tryExceptBlocks = 0 ∧ nb.retryLoops = 0 ∧
        nb.failureGuardConds = []) := by
  decide

/-- C4 (amended): the notebooks contain no try/except error handling and
no retry loops authored by this repository, so failures surface as
exceptions; the only conditions inspected to branch around a failure mode
are the two zero-neighbor edge-case guards of the dataset-creation
notebook's writing loops. -/
theorem error_handling_extent :
    (notebookCorpus.all fun nb =>
      nb.tryExceptBlocks == 0 && nb.retryLoops == 0) = true ∧
    (notebookCorpus.all fun nb =>
      nb.failureGuardConds.isEmpty ||
        (nb.nbName == "notes/custom_datasets/lmdb_dataset_creation")) = true ∧
    lmdbDatasetCreationNb ∈ notebookCorpus ∧
    lmdbDatasetCreationNb.failureGuardConds =
      [ "initial_struc.edge_index.shape[1] == 0"
      , "data.edge_index.shape[1] == 0" ] := by
  decide

/-- C1 counterexample: the claim that every record written by the demo is
addressed by a string-encoded integer key and stores a serialized graph
record is false — the S2EF writing cell also puts a record under the key
`length` whose value is a serialized plain integer. -/
theorem s2ef_length_put_counterexample :
    ∃ ps, s2efWriteCell demoConvert lmdbNotebookGlobals demoTraj = Except.ok ps ∧
      ({ key := "length", val := .pickledLen 2 } : StoreEntry) ∈ ps ∧
      ¬ (∀ p ∈ ps, (∃ i : Nat, p.key = toString i) ∧
          p.val.isGraphRecord = true) := by
  refine ⟨_, rfl, by decide, fun hAll => ?_⟩
  have h2 := (hAll { key := "length", val := .pickledLen 2 } (by decide)).2
  simp [StoredVal.isGraphRecord] at h2

/-- C1 (amended): every put performed inside the IS2RE and S2EF writing
loops is addressed by the ASCII encoding of the record's integer index and
stores the serialized graph record (with the index recorded in the
record's sid, resp. fid, field); in addition, after its loop, the S2EF
writing cell performs one further put under the key `length` whose value
is the serialized record count, not a graph record. -/
theorem lmdb_loop_puts_are_indexed_records :
    (∀ (convert : AseAtoms → GraphData) (readFile : String → List AseAtoms)
       (sys : List String) (idx : Nat) (ps : List StoreEntry) (fin : Nat),
        is2reWriteLoop convert readFile lmdbNotebookGlobals sys idx =
          .ok (ps, fin) →
        ∀ p ∈ ps, ∃ (i : Nat) (r : Is2reRecord),
          p = { key := toString i, val := .is2re r } ∧ r.sid = i) ∧
    (∀ (trajTags : List ℤ) (ds : List GraphData) (fid : Nat)
       (ps : List StoreEntry),
        s2efWriteLoop lmdbNotebookGlobals trajTags ds fid = .ok ps →
        ∀ p ∈ ps, ∃ (i : Nat) (r : S2efRecord),
          p = { key := toString i, val := .s2ef r } ∧ r.fid = [(i : ℤ)]) ∧
    (∀ (convert : AseAtoms → GraphData) (raw : List AseAtoms)
       (ps : List StoreEntry),
        s2efWriteCell convert lmdbNotebookGlobals raw = .ok ps →
        ∃ qs, ps = qs ++ [{ key := "length", val := .pickledLen raw.length }] ∧
          ∀ p ∈ qs, p.val.isGraphRecord = true) := by
  refine ⟨?_, ?_, ?_⟩
  · intro convert readFile sys idx ps fin h p hp
    obtain ⟨⟨i, hi⟩, rfl⟩ := List.mem_iff_get.mp hp
    obtain ⟨_, hent⟩ :=
      is2re_loop_entries convert readFile lmdbNotebookGlobals sys idx ps fin h
    obtain ⟨r, hr, hsid⟩ := hent i hi
    exact ⟨idx + i, r, hr, hsid⟩
  · intro trajTags ds fid ps h p hp
    exact s2ef_loop_entries lmdbNotebookGlobals trajTags ds fid ps h p hp
  · intro convert raw ps h
    cases raw with
    | nil =>
      simp only [s2efWriteCell] at h
      exact Except.noConfusion h
    | cons a rest =>
      simp only [s2efWriteCell] at h
      cases hloop : s2efWriteLoop lmdbNotebookGlobals a.atomTags
          ((a :: rest).map convert) 0 with
      | error e =>
        simp only [hloop] at h
        exact Except.noConfusion h
      | ok qs =>
        simp only [hloop, Except.ok.injEq] at h
        subst h
        refine ⟨qs, by simp, ?_⟩
        intro p hp
        obtain ⟨i, r, hpr, _⟩ :=
          s2ef_loop_entries lmdbNotebookGlobals a.atomTags
            ((a :: rest).map convert) 0 qs hloop p hp
        rw [hpr]
        rfl

/-- C1 (amended) witness: the theorem applied to the single-system demo
run of the IS2RE loop. -/
theorem lmdb_loop_puts_are_indexed_records_witness :
    ∃ (i : Nat) (r : Is2reRecord),
      ({ key := "0"
       , val := .is2re (mkInitialStrucRecord
           { demoConvert demoAtomsA with dataTags := demoAtomsA.atomTags }
           { demoConvert demoAtomsB with dataTags := demoAtomsA.atomTags }
           0) } : StoreEntry)
        = { key := toString i, val := .is2re r } ∧ r.sid = i :=
  lmdb_loop_puts_are_indexed_records.1 demoConvert demoReadFile
    ["CuCO_adslab.traj"] 0 demoIs2rePuts 1 rfl _ (by decide)

/-- C8: in both writing loops the zero-neighbor guard evaluates the name
traj_path, which is not bound in the notebook's global scope, so reaching
the edge case raises NameError and aborts the loop instead of executing
the continue. -/
theorem zero_neighbor_guard_raises_name_error :
    (∀ (convert : AseAtoms → GraphData) (readFile : String → List AseAtoms)
       (sys : String) (rest : List String) (idx : Nat)
       (initial relaxed : GraphData),
        readTrajectoryExtractFeatures convert (readFile sys) =
          .ok (initial, relaxed) →
        initial.edge_index.length = 0 →
        is2reWriteLoop convert readFile lmdbNotebookGlobals (sys :: rest) idx =
          .error (.nameError "traj_path")) ∧
    (∀ (trajTags : List ℤ) (d : GraphData) (rest : List GraphData) (fid : Nat),
        d.edge_index.length = 0 →
        s2efWriteLoop lmdbNotebookGlobals trajTags (d :: rest) fid =
          .error (.nameError "traj_path")) := by
  have hb : boundIn lmdbNotebookGlobals "traj_path" = false := by decide
  constructor
  · intro convert readFile sys rest idx initial relaxed hread hz
    have hz' : (mkInitialStrucRecord initial relaxed idx).edge_index.length = 0 := hz
    simp only [is2reWriteLoop, hread, hz', if_true, hb]
    simp
  · intro trajTags d rest fid hz
    have hz' : (mkS2efFrameRecord d fid trajTags).edge_index.length = 0 := hz
    simp only [s2efWriteLoop, hz', if_true, hb]
    simp

/-- C8 witness: the guard fires on a conversion with an empty edge set and
the loop indeed raises NameError on the demo input. -/
theorem zero_neighbor_guard_raises_name_error_witness :
    is2reWriteLoop demoConvertNoEdges demoReadFile lmdbNotebookGlobals
      ["x"] 0 = .error (.nameError "traj_path") :=
  zero_neighbor_guard_raises_name_error.1 demoConvertNoEdges demoReadFile
    "x" [] 0
    { demoConvertNoEdges demoAtomsA with dataTags := demoAtomsA.atomTags }
    { demoConvertNoEdges demoAtomsB with dataTags := demoAtomsA.atomTags }
    rfl rfl

/-- C9: on successful completion of the IS2RE writing loop started at
index 0, the keys written are exactly the ASCII encodings of the
consecutive integers 0 .. n-1 (n the number of records written), the key
list has no duplicates, and each record's sid equals its own key's
integer. -/
theorem is2re_keys_consecutive_and_sid :
    ∀ (convert : AseAtoms → GraphData) (readFile : String → List AseAtoms)
      (env : List String) (sys : List String) (ps : List StoreEntry)
      (fin : Nat),
      is2reWriteLoop convert readFile env sys 0 = .ok (ps, fin) →
      ps.map StoreEntry.key = (List.range ps.length).map toString ∧
      (ps.map StoreEntry.key).Nodup ∧
      ∀ i (hi : i < ps.length), ∃ r : Is2reRecord,
        ps.get ⟨i, hi⟩ = { key := toString i, val := .is2re r } ∧
        r.sid = i := by
  intro convert readFile env sys ps fin h
  obtain ⟨_, hent⟩ := is2re_loop_entries convert readFile env sys 0 ps fin h
  have hent' : ∀ i (hi : i < ps.length), ∃ r : Is2reRecord,
      ps.get ⟨i, hi⟩ = { key := toString i, val := .is2re r } ∧ r.sid = i := by
    intro i hi
    obtain ⟨r, hr, hsid⟩ := hent i hi
    rw [Nat.zero_add] at hr hsid
    exact ⟨r, hr, hsid⟩
  have hkeys : ps.map StoreEntry.key = (List.range ps.length).map toString := by
    apply List.ext_get
    · simp
    · intro i h1 h2
      obtain ⟨r, hr, _⟩ := hent' i (by simpa using h1)
      rw [List.get_map, hr]
      simp [List.get_range]
  refine ⟨hkeys, ?_, hent'⟩
  rw [hkeys]
  have hinj : Function.Injective (fun n : ℕ => toString n) :=
    fun a b hmn => natToString_injective a b hmn
  exact (List.nodup_range ps.length).map hinj

/-- C9 witness: the key list of the demo run is the encoding of
`List.range`. -/
theorem is2re_keys_consecutive_and_sid_witness :
    demoIs2rePuts.map StoreEntry.key =
      (List.range demoIs2rePuts.length).map toString :=
  (is2re_keys_consecutive_and_sid demoConvert demoReadFile
    lmdbNotebookGlobals ["CuCO_adslab.traj"] demoIs2rePuts 1 rfl).1

/-- C5: the dataset-store usage round-trips.  After a successful IS2RE
write run, the store read through the `SinglePointLmdbDataset` model has
length equal to the number of records written and item i is the stored
record i; after the S2EF cell, the shard read through the
`TrajectoryLmdbDataset` model has length equal to the number of frames
written and frame i is the stored record i. -/
theorem lmdb_roundtrip :
    (∀ (convert : AseAtoms → GraphData) (readFile : String → List AseAtoms)
       (sys : List String) (ps : List StoreEntry) (fin : Nat),
        is2reWriteLoop convert readFile lmdbNotebookGlobals sys 0 =
          .ok (ps, fin) →
        singlePointLmdbLen ps = ps.length ∧
        ∀ i (hi : i < ps.length),
          singlePointLmdbGet ps i = some (ps.get ⟨i, hi⟩).val) ∧
    (∀ (convert : AseAtoms → GraphData) (raw : List AseAtoms)
       (ps : List StoreEntry),
        s2efWriteCell convert lmdbNotebookGlobals raw = .ok ps →
        ∃ qs, ps = qs ++ [{ key := "length", val := .pickledLen raw.length }] ∧
          qs.length = raw.length ∧
          trajectoryLmdbLen [ps] = some raw.length ∧
          ∀ i (hi : i < qs.length),
            trajectoryLmdbGetFrame ps i = some (qs.get ⟨i, hi⟩).val) := by
  constructor
  · intro convert readFile sys ps fin h
    obtain ⟨_, hent⟩ :=
      is2re_loop_entries convert readFile lmdbNotebookGlobals sys 0 ps fin h
    have hkeys : ∀ i (hi : i < ps.length),
        (ps.get ⟨i, hi⟩).key = toString (0 + i) := by
      intro i hi
      obtain ⟨r, hr, _⟩ := hent i hi
      rw [hr]
    refine ⟨rfl, ?_⟩
    intro i hi
    have hlk := lookupFirst_keyed ps 0 hkeys i hi
    simpa [singlePointLmdbGet] using hlk
  · intro convert raw ps h
    cases raw with
    | nil =>
      simp only [s2efWriteCell] at h
      exact Except.noConfusion h
    | cons a rest =>
      simp only [s2efWriteCell] at h
      cases hloop : s2efWriteLoop lmdbNotebookGlobals a.atomTags
          ((a :: rest).map convert) 0 with
      | error e =>
        simp only [hloop] at h
        exact Except.noConfusion h
      | ok qs =>
        simp only [hloop, Except.ok.injEq, List.length_map] at h
        subst h
        have hb : boundIn lmdbNotebookGlobals "traj_path" = false := by decide
        obtain ⟨hlen, hent⟩ :=
          s2ef_loop_noskip lmdbNotebookGlobals hb a.atomTags
            ((a :: rest).map convert) 0 qs hloop
        have hlenraw : qs.length = (a :: rest).length := by
          rw [hlen]
          simp
        have hgraph : ∀ p ∈ qs, p.val.isGraphRecord = true := by
          intro p hp
          obtain ⟨⟨i, hi⟩, rfl⟩ := List.mem_iff_get.mp hp
          obtain ⟨r, hr⟩ := hent i hi
          rw [hr]
          rfl
        have hge := graphEntries_append_len qs (a :: rest).length hgraph
        refine ⟨qs, rfl, hlenraw, ?_, ?_⟩
        · simp [trajectoryLmdbLen, shardLen_append]
        · intro i hi
          have hkeys2 : ∀ j (hj : j < qs.length),
              (qs.get ⟨j, hj⟩).key = toString (0 + j) := by
            intro j hj
            obtain ⟨r, hr⟩ := hent j hj
            rw [hr]
          have hlk := lookupFirst_keyed qs 0 hkeys2 i hi
          simp only [trajectoryLmdbGetFrame, hge]
          simpa using hlk

/-- C5 witness: the round-trip applied to the demo IS2RE run. -/
theorem lmdb_roundtrip_witness :
    singlePointLmdbLen demoIs2rePuts = demoIs2rePuts.length :=
  (lmdb_roundtrip.1 demoConvert demoReadFile ["CuCO_adslab.traj"]
    demoIs2rePuts 1 rfl).1

/-- C10: the first trainer of each training notebook is constructed from
`copy.deepcopy(model)`; whatever in-place mutation that constructor
performs on objects reachable from its argument, the `model` dict itself
reads back unchanged, so the second trainer, built later from the same
`model` variable, receives a configuration equal to the one originally
defined. -/
theorem deepcopy_model_dict_unchanged :
    (∀ (h1 : PyHeap) (v1 : PyVal) (mutate : PyHeap → PyHeap),
        deepcopyVal 2 s2efModelHeap (.ref 3) = some (h1, v1) →
        (∀ a, a ∉ reachVal 2 h1 v1 →
          (mutate h1).objs.get? a = h1.objs.get? a) →
        ∀ g, readVal g (mutate h1) (.ref 3) =
          readVal g s2efModelHeap (.ref 3)) ∧
    (∀ (h1 : PyHeap) (v1 : PyVal) (mutate : PyHeap → PyHeap),
        deepcopyVal 2 is2reModelHeap (.ref 3) = some (h1, v1) →
        (∀ a, a ∉ reachVal 2 h1 v1 →
          (mutate h1).objs.get? a = h1.objs.get? a) →
        ∀ g, readVal g (mutate h1) (.ref 3) =
          readVal g is2reModelHeap (.ref 3)) := by
  constructor
  · intro h1 v1 mutate hcopy hmut g
    refine deepcopy_frame 2 2 s2efModelHeap h1 (.ref 3) v1 hcopy ?_ mutate hmut g
    intro f b hb
    refine valClosedBelow_of_heapClosed s2efModelHeap (by decide) f (.ref 3)
      ?_ b hb
    intro a ha
    injection ha with h3
    subst h3
    decide
  · intro h1 v1 mutate hcopy hmut g
    refine deepcopy_frame 2 2 is2reModelHeap h1 (.ref 3) v1 hcopy ?_ mutate hmut g
    intro f b hb
    refine valClosedBelow_of_heapClosed is2reModelHeap (by decide) f (.ref 3)
      ?_ b hb
    intro a ha
    injection ha with h3
    subst h3
    decide

/-- C10 witness: the identity mutation on the concretely computed copy
leaves the S2EF model dict reading back as originally defined. -/
theorem deepcopy_model_dict_unchanged_witness :
    readVal 2 (id s2efCopiedHeap) (.ref 3) =
      readVal 2 s2efModelHeap (.ref 3) :=
  deepcopy_model_dict_unchanged.1 s2efCopiedHeap (.ref 7) id (by decide)
    (fun a _ => rfl) 2
